import Mathlib

/-!
Shallow embedding of parts of the minimint repository:

* the client query strategies of `client/client-lib/src/query.rs`
  (`CurrentConsensus`, `EventuallyConsistent`, `UnionResponses`,
  `UnionResponsesSingle`, `Retry404`, the `QueryStep` directive type);
* the module consensus-item proposer loop of
  `fedimint-server/src/consensus/mod.rs` (`submit_module_ci_proposals`);
* the endpoint path construction and validation of
  `fedimint-server/src/lib.rs` (`FedimintServer::attach_endpoints`).

Rust collections are modelled by lists: `HashSet<PeerId>` as a duplicate-free
list with append-if-absent insertion, `BTreeMap<PeerId, ApiError>` as an
association list whose insert replaces the entry of an existing key.
Machine integers that matter here (peer ids, thresholds, lengths) never
overflow in the modelled code paths, so they are `Nat`.
-/

/-- `fedimint_api::PeerId`, a numeric peer identifier. -/
abbrev PeerId := Nat

/-- Client API error. Modelled from the match in `query.rs`:
`ApiError::Rpc(JsonRpcError::Call(RpcCallError::Custom(e)))` with `e.code()`.
`rpcCallCustom` is exactly that nesting (carrying the numeric code); every
other error shape of the crate is collapsed into `other`, which is all the
query strategies distinguish. -/
inductive ApiError where
  | rpcCallCustom (code : Int) (message : String)
  | other (tag : String)
deriving DecidableEq, Repr

/-- `query.rs`: `QueryStep<R>`, the directive a strategy returns per response. -/
inductive QueryStep (R : Type) where
  | RetryMembers (peers : List PeerId)
  | FailMembers (errors : List (PeerId × ApiError))
  | Continue
  | Success (r : R)
  | Failure (errors : List (PeerId × ApiError))
deriving DecidableEq, Repr

/-- `HashSet<PeerId>::insert`: add `p` when absent.  Only membership and size
of the set are observed by the code. -/
def insertPeer (s : List PeerId) (p : PeerId) : List PeerId :=
  if p ∈ s then s else s ++ [p]

/-- `BTreeMap<PeerId, ApiError>::insert`: replace the entry of an existing key,
otherwise add a new entry. -/
def insertKV : List (PeerId × ApiError) → PeerId → ApiError → List (PeerId × ApiError)
  | [], p, e => [(p, e)]
  | q :: rest, p, e => if q.1 = p then (p, e) :: rest else q :: insertKV rest p e

/-- `query.rs`: `CurrentConsensus<R>` state.  `existing_results` is the linear
list of distinct Ok values paired with the set of peers supporting each;
`errors` is the per-peer error map. -/
structure CurrentConsensus (R : Type) where
  existing_results : List (R × List PeerId)
  errors : List (PeerId × ApiError)
  required : Nat
deriving DecidableEq, Repr

/-- `CurrentConsensus::new(required)`. -/
def CurrentConsensus.new {R : Type} (required : Nat) : CurrentConsensus R :=
  ⟨[], [], required⟩

/-- The Ok branch of `CurrentConsensus::process`: find the first entry whose
value equals `r`; if the peer is already among its supporters ignore the
duplicate (debug log), otherwise add the peer; if no entry matches, push a new
entry `(r, {p})` at the end. -/
def addPeerFirst {R : Type} [DecidableEq R] :
    List (R × List PeerId) → R → PeerId → List (R × List PeerId)
  | [], r, p => [(r, [p])]
  | pr :: rest, r, p =>
    if pr.1 = r then (if p ∈ pr.2 then pr else (pr.1, pr.2 ++ [p])) :: rest
    else pr :: addPeerFirst rest r p

/-- The state-update phase of `CurrentConsensus::process` (the `match result`
at the top of the function body). -/
def CurrentConsensus.accumulate {R : Type} [DecidableEq R] (s : CurrentConsensus R)
    (peer : PeerId) : Except ApiError R → CurrentConsensus R
  | .ok r => { s with existing_results := addPeerFirst s.existing_results r peer }
  | .error e => { s with errors := insertKV s.errors peer e }

/-- The directive phase of `CurrentConsensus::process`: return `Success` of the
first value with at least `required` supporters; else, when at least `required`
peers have errored, `mem::take` the error map and return `Failure` of it; else
`Continue`. -/
def CurrentConsensus.inspect {R : Type} (s : CurrentConsensus R) :
    CurrentConsensus R × QueryStep R :=
  match s.existing_results.find? (fun pr => s.required ≤ pr.2.length) with
  | some pr => (s, .Success pr.1)
  | none =>
    if s.required ≤ s.errors.length then ({ s with errors := [] }, .Failure s.errors)
    else (s, .Continue)

/-- `CurrentConsensus::process`: accumulate the response, then inspect. -/
def CurrentConsensus.process {R : Type} [DecidableEq R] (s : CurrentConsensus R)
    (peer : PeerId) (result : Except ApiError R) : CurrentConsensus R × QueryStep R :=
  (s.accumulate peer result).inspect

/-- Drive a `CurrentConsensus` instance over a sequence of `(peer, result)`
calls, collecting the emitted directives. -/
def runCC {R : Type} [DecidableEq R] :
    CurrentConsensus R → List (PeerId × Except ApiError R) → List (QueryStep R)
  | _, [] => []
  | s, q :: rest => (s.process q.1 q.2).2 :: runCC (s.process q.1 q.2).1 rest

/-- `query.rs`: `EventuallyConsistent<R>` state: the responders of the current
round, the wrapped `CurrentConsensus` (never reset between rounds), and the
threshold. -/
structure EventuallyConsistent (R : Type) where
  responses : List PeerId
  current : CurrentConsensus R
  required : Nat
deriving DecidableEq, Repr

/-- `EventuallyConsistent::new(required)`. -/
def EventuallyConsistent.new {R : Type} (required : Nat) : EventuallyConsistent R :=
  ⟨[], .new required, required⟩

/-- `EventuallyConsistent::process`: record the responder, delegate to the
wrapped `CurrentConsensus`; when it says `Continue` and at least `required`
peers have responded this round, emit `RetryMembers` of the round's responders
and clear the round; every other inner directive passes through unchanged. -/
def EventuallyConsistent.process {R : Type} [DecidableEq R] (s : EventuallyConsistent R)
    (peer : PeerId) (result : Except ApiError R) : EventuallyConsistent R × QueryStep R :=
  let responses := insertPeer s.responses peer
  let c := s.current.process peer result
  match c.2 with
  | .Continue =>
    if s.required ≤ responses.length then
      ({ s with responses := [], current := c.1 }, .RetryMembers responses)
    else ({ s with responses := responses, current := c.1 }, .Continue)
  | step => ({ s with responses := responses, current := c.1 }, step)

/-- Drive an `EventuallyConsistent` instance over a sequence of calls. -/
def runEC {R : Type} [DecidableEq R] :
    EventuallyConsistent R → List (PeerId × Except ApiError R) → List (QueryStep R)
  | _, [] => []
  | s, q :: rest => (s.process q.1 q.2).2 :: runEC (s.process q.1 q.2).1 rest

/-- The dedup-append used by both union strategies: keep `r` out if an equal
element is already present, else push it at the end (insertion order). -/
def unionInsert {R : Type} [DecidableEq R] (acc : List R) (r : R) : List R :=
  if r ∈ acc then acc else acc ++ [r]

/-- `query.rs`: `UnionResponses<R>` state. -/
structure UnionResponses (R : Type) where
  responses : List PeerId
  existing_results : List R
  current : CurrentConsensus (List R)
  required : Nat
deriving DecidableEq, Repr

/-- `UnionResponses::new(required)`. -/
def UnionResponses.new {R : Type} (required : Nat) : UnionResponses R :=
  ⟨[], [], .new required, required⟩

/-- `UnionResponses::process`: on Ok, merge the vector into the deduplicated
union, record the responder, and emit `Success` of the union (taking it out of
the state) once `required` distinct peers have answered; on Err, delegate to
the wrapped `CurrentConsensus`. -/
def UnionResponses.process {R : Type} [DecidableEq R] (s : UnionResponses R)
    (peer : PeerId) : Except ApiError (List R) → UnionResponses R × QueryStep (List R)
  | .ok results =>
    let existing := results.foldl unionInsert s.existing_results
    let responses := insertPeer s.responses peer
    if s.required ≤ responses.length then
      ({ s with existing_results := [], responses := responses }, .Success existing)
    else ({ s with existing_results := existing, responses := responses }, .Continue)
  | .error e =>
    let c := s.current.process peer (.error e)
    ({ s with current := c.1 }, c.2)

/-- Drive a `UnionResponses` instance over a sequence of calls. -/
def runUR {R : Type} [DecidableEq R] :
    UnionResponses R → List (PeerId × Except ApiError (List R)) → List (QueryStep (List R))
  | _, [] => []
  | s, q :: rest => (s.process q.1 q.2).2 :: runUR (s.process q.1 q.2).1 rest

/-- `query.rs`: `UnionResponsesSingle<R>` state (same fields as
`UnionResponses<R>`). -/
structure UnionResponsesSingle (R : Type) where
  responses : List PeerId
  existing_results : List R
  current : CurrentConsensus (List R)
  required : Nat
deriving DecidableEq, Repr

/-- `UnionResponsesSingle::new(required)`. -/
def UnionResponsesSingle.new {R : Type} (required : Nat) : UnionResponsesSingle R :=
  ⟨[], [], .new required, required⟩

/-- `UnionResponsesSingle::process`: like `UnionResponses::process` but each
peer contributes a single value instead of a vector. -/
def UnionResponsesSingle.process {R : Type} [DecidableEq R] (s : UnionResponsesSingle R)
    (peer : PeerId) : Except ApiError R → UnionResponsesSingle R × QueryStep (List R)
  | .ok r =>
    let existing := unionInsert s.existing_results r
    let responses := insertPeer s.responses peer
    if s.required ≤ responses.length then
      ({ s with existing_results := [], responses := responses }, .Success existing)
    else ({ s with existing_results := existing, responses := responses }, .Continue)
  | .error e =>
    let c := s.current.process peer (.error e)
    ({ s with current := c.1 }, c.2)

/-- Field-wise conversion between the two (structurally identical) union
strategy states. -/
def UnionResponsesSingle.toUR {R : Type} (s : UnionResponsesSingle R) : UnionResponses R :=
  ⟨s.responses, s.existing_results, s.current, s.required⟩

/-- Wrap a single-value result as the corresponding one-element-vector result. -/
def liftSingle {R : Type} : Except ApiError R → Except ApiError (List R)
  | .ok r => .ok [r]
  | .error e => .error e

/-- The `e.code() == 404` guard of `Retry404::process`, on the modelled error
type: the error is an rpc call error carrying the "not found" code 404. -/
def ApiError.is404 : ApiError → Bool
  | .rpcCallCustom code _ => code == 404
  | .other _ => false

/-- `query.rs`: `Retry404<R>` state. -/
structure Retry404 (R : Type) where
  current : CurrentConsensus R
deriving DecidableEq, Repr

/-- `Retry404::new(required)`. -/
def Retry404.new {R : Type} (required : Nat) : Retry404 R :=
  ⟨.new required⟩

/-- `Retry404::process`: a 404 rpc error yields `RetryMembers({peer})`; every
other result is delegated to the wrapped `CurrentConsensus`. -/
def Retry404.process {R : Type} [DecidableEq R] (s : Retry404 R) (peer : PeerId)
    (result : Except ApiError R) : Retry404 R × QueryStep R :=
  match result with
  | .error e =>
    if e.is404 then (s, .RetryMembers [peer])
    else
      let c := s.current.process peer (.error e)
      (⟨c.1⟩, c.2)
  | .ok r =>
    let c := s.current.process peer (.ok r)
    (⟨c.1⟩, c.2)

/-- Drive a `Retry404` instance over a sequence of calls. -/
def runR404 {R : Type} [DecidableEq R] :
    Retry404 R → List (PeerId × Except ApiError R) → List (QueryStep R)
  | _, [] => []
  | s, q :: rest => (s.process q.1 q.2).2 :: runR404 (s.process q.1 q.2).1 rest

/-- Modelled from the spec: `ConsensusItem` lives in `fedimint-core` (not under
`src/`); the spec describes the proposer wrapping each module item as
`ConsensusItem::Module(instance_id, payload)`.  Only the `Module` variant
matters to the proposer loop; other variants are represented by
`Transaction`. -/
inductive ConsensusItem where
  | Module (instanceId : Nat) (payload : Nat)
  | Transaction (txid : Nat)
deriving DecidableEq, Repr

/-- State of the bounded submission channel
(`async_channel::bounded(TRANSACTION_BUFFER)` in `consensus/mod.rs`):
capacity, pending queue, and whether the receiving side has been dropped. -/
structure Channel (α : Type) where
  cap : Nat
  queue : List α
  closed : Bool
deriving DecidableEq, Repr

/-- Outcome of one `sender.send(x).await.ok()` on the channel, observed at the
instant of the call. -/
inductive SendOutcome (α : Type) where
  /-- capacity was available: the message is enqueued at the tail -/
  | sent (queue : List α)
  /-- the channel is full and open: `send(..).await` suspends the calling task
  until space frees (the message is not dropped) -/
  | suspends
  /-- the channel is closed: `send` returns `Err`, which `.ok()` discards -/
  | closedErrIgnored
deriving DecidableEq, Repr

/-- Semantics of `async_channel::Sender::send(x).await` followed by `.ok()`:
the send resolves immediately when the queue is below capacity, suspends while
the channel is full, and only a closed channel produces the (discarded)
error. -/
def sendAwaitOk {α : Type} (c : Channel α) (x : α) : SendOutcome α :=
  if c.closed then .closedErrIgnored
  else if c.queue.length < c.cap then .sent (c.queue ++ [x])
  else .suspends

/-- One item of the per-tick loop body of `submit_module_ci_proposals`
(`consensus/mod.rs`): wrap the proposed item as `ConsensusItem::Module` and
perform `submission_sender.send(..).await.ok()`. -/
def submitModuleCI (c : Channel ConsensusItem) (instanceId payload : Nat) :
    SendOutcome ConsensusItem :=
  sendAwaitOk c (.Module instanceId payload)

/-- Modelled from the spec: the claimed best-effort push — "if the channel is
full, the push is dropped silently" (queue unchanged, task not suspended).
Stated only for comparison with `submitModuleCI`, which embeds the source. -/
def submitModuleCIBestEffort (c : Channel ConsensusItem) (instanceId payload : Nat) :
    List ConsensusItem :=
  if c.queue.length < c.cap then c.queue ++ [ConsensusItem.Module instanceId payload]
  else c.queue

/-- The character class admitted by `attach_endpoints` (`fedimint-server/src/lib.rs`):
`'0'..='9' | 'a'..='z' | '_'`. -/
def validPathChar (c : Char) : Bool :=
  ('0' ≤ c && c ≤ '9') || ('a' ≤ c && c ≤ 'z') || c == '_'

/-- Path construction of `attach_endpoints`: a module endpoint's path is
`module_<instance_id>_<name>`, a root endpoint's path is used as given. -/
def mkEndpointPath (moduleInstanceId : Option Nat) (endpointPath : List Char) : List Char :=
  match moduleInstanceId with
  | some id => "module_".toList ++ (toString id).toList ++ "_".toList ++ endpointPath
  | none => endpointPath

/-- The registration gate of `attach_endpoints`: `none` models the
`panic!("Constructing bad path name ..")` (startup aborts, nothing served);
`some path` models successful registration of `path`. -/
def attachEndpointPath (moduleInstanceId : Option Nat) (endpointPath : List Char) :
    Option (List Char) :=
  let path := mkEndpointPath moduleInstanceId endpointPath
  if path.any (fun c => !validPathChar c) then none else some path

/-- The spec's path format `[0-9a-z_]+`: nonempty, every character in the
class. -/
def matchesPathFormat (path : List Char) : Bool :=
  !path.isEmpty && path.all validPathChar

/-- Whether a directive is a `Success`. -/
def QueryStep.isSuccess {R : Type} : QueryStep R → Bool
  | .Success _ => true
  | _ => false

/-- Whether a directive is a `Failure`. -/
def QueryStep.isFailure {R : Type} : QueryStep R → Bool
  | .Failure _ => true
  | _ => false

/-- Some accumulated value has reached the success threshold. -/
def CurrentConsensus.saturated {R : Type} (s : CurrentConsensus R) : Prop :=
  ∃ pr ∈ s.existing_results, s.required ≤ pr.2.length

/-- Value `v` has reached the success threshold. -/
def CurrentConsensus.saturatedValue {R : Type} (s : CurrentConsensus R) (v : R) : Prop :=
  ∃ pr ∈ s.existing_results, pr.1 = v ∧ s.required ≤ pr.2.length

/-- Peer `p` is recorded as a supporter of value `v`. -/
def CurrentConsensus.supports {R : Type} (s : CurrentConsensus R) (v : R) (p : PeerId) : Prop :=
  ∃ pr ∈ s.existing_results, pr.1 = v ∧ p ∈ pr.2

/-- Fold the dedup-append union over a list of received vectors (the running
`existing_results` of `UnionResponses` across Ok responses). -/
def unionAll {R : Type} [DecidableEq R] (acc : List R) (vecs : List (List R)) : List R :=
  vecs.foldl (fun a rs => rs.foldl unionInsert a) acc

section Lemmas

variable {R : Type}

theorem addPeerFirst_keeps_length [DecidableEq R] {n : Nat} (v : R) (p : PeerId) :
    ∀ (l : List (R × List PeerId)), (∃ pr ∈ l, n ≤ pr.2.length) →
      ∃ pr ∈ addPeerFirst l v p, n ≤ pr.2.length
  | [], h => absurd h (by simp)
  | q :: rest, h => by
    rcases h with ⟨pr, hmem, hlen⟩
    by_cases hq : q.1 = v
    · simp only [addPeerFirst, if_pos hq]
      rcases List.mem_cons.mp hmem with heq | htail
      · subst heq
        by_cases hp : p ∈ pr.2
        · exact ⟨pr, by simp [hp], hlen⟩
        · refine ⟨(pr.1, pr.2 ++ [p]), by simp [hp], ?_⟩
          simpa using Nat.le_succ_of_le hlen
      · exact ⟨pr, by simp [htail], hlen⟩
    · simp only [addPeerFirst, if_neg hq]
      rcases List.mem_cons.mp hmem with heq | htail
      · subst heq
        exact ⟨pr, List.mem_cons_self _ _, hlen⟩
      · rcases addPeerFirst_keeps_length v p rest ⟨pr, htail, hlen⟩ with ⟨pr', hmem', hlen'⟩
        exact ⟨pr', List.mem_cons_of_mem _ hmem', hlen'⟩

theorem accumulate_required [DecidableEq R] (s : CurrentConsensus R) (p : PeerId) (r : Except ApiError R) :
    (s.accumulate p r).required = s.required := by
  cases r <;> rfl

theorem accumulate_saturated [DecidableEq R] {s : CurrentConsensus R} (p : PeerId) (r : Except ApiError R)
    (h : s.saturated) : (s.accumulate p r).saturated := by
  cases r with
  | ok v => exact addPeerFirst_keeps_length v p s.existing_results h
  | error e => exact h

theorem inspect_saturated {s : CurrentConsensus R} (h : s.saturated) :
    ∃ v, s.inspect = (s, .Success v) ∧ s.saturatedValue v := by
  rcases h with ⟨pr, hmem, hlen⟩
  have hsome : (s.existing_results.find? (fun q => s.required ≤ q.2.length)).isSome := by
    rw [List.find?_isSome]
    exact ⟨pr, hmem, by simpa using hlen⟩
  rcases Option.isSome_iff_exists.mp hsome with ⟨pr', hfind⟩
  refine ⟨pr'.1, ?_, pr', List.mem_of_find?_eq_some hfind, rfl,
    by simpa using List.find?_some hfind⟩
  simp [CurrentConsensus.inspect, hfind]

theorem inspect_success {s : CurrentConsensus R} {v : R} {s' : CurrentConsensus R}
    (h : s.inspect = (s', .Success v)) : s' = s ∧ s.saturatedValue v := by
  unfold CurrentConsensus.inspect at h
  rcases hfind : s.existing_results.find? (fun q => s.required ≤ q.2.length) with _ | pr
  · rw [hfind] at h
    by_cases herr : s.required ≤ s.errors.length <;> simp [herr] at h
  · rw [hfind] at h
    simp only [Prod.mk.injEq, QueryStep.Success.injEq] at h
    refine ⟨h.1.symm, pr, List.mem_of_find?_eq_some hfind, h.2.symm ▸ rfl, ?_⟩
    simpa using List.find?_some hfind

theorem inspect_not_saturated {s : CurrentConsensus R} (h : ¬ s.saturated) :
    s.existing_results.find? (fun q => s.required ≤ q.2.length) = none := by
  rw [List.find?_eq_none]
  intro pr hmem hpred
  exact h ⟨pr, hmem, by simpa using hpred⟩

theorem inspect_failure {s : CurrentConsensus R} {m : List (PeerId × ApiError)}
    {s' : CurrentConsensus R} (h : s.inspect = (s', .Failure m)) :
    m = s.errors ∧ s.required ≤ s.errors.length ∧ ¬ s.saturated := by
  unfold CurrentConsensus.inspect at h
  rcases hfind : s.existing_results.find? (fun q => s.required ≤ q.2.length) with _ | pr
  · rw [hfind] at h
    by_cases herr : s.required ≤ s.errors.length
    · simp only [if_pos herr, Prod.mk.injEq, QueryStep.Failure.injEq] at h
      refine ⟨h.2.symm, herr, fun hsat => ?_⟩
      rcases inspect_saturated hsat with ⟨v, hi, _⟩
      rw [List.find?_eq_none] at hfind
      rcases hsat with ⟨pr, hmem, hlen⟩
      exact hfind pr hmem (by simpa using hlen)
    · simp [herr] at h
  · rw [hfind] at h
    simp at h

theorem inspect_not_failure {s : CurrentConsensus R}
    (h : (s.inspect.2).isFailure = false) : s.inspect.1 = s := by
  unfold CurrentConsensus.inspect at h ⊢
  rcases hfind : s.existing_results.find? (fun q => s.required ≤ q.2.length) with _ | pr
  all_goals rw [hfind] at h ⊢
  by_cases herr : s.required ≤ s.errors.length
  · rw [if_pos herr] at h
    exact absurd h (by simp [QueryStep.isFailure])
  · simp [herr]

theorem insertKV_mem (p : PeerId) (e : ApiError) :
    ∀ m : List (PeerId × ApiError), (p, e) ∈ insertKV m p e
  | [] => by simp [insertKV]
  | q :: rest => by
    by_cases hq : q.1 = p
    · simp [insertKV, hq]
    · simpa [insertKV, hq] using Or.inr (insertKV_mem p e rest)

theorem addPeerFirst_adds [DecidableEq R] (v : R) (p : PeerId) :
    ∀ l : List (R × List PeerId), ∃ pr ∈ addPeerFirst l v p, pr.1 = v ∧ p ∈ pr.2
  | [] => ⟨(v, [p]), by simp [addPeerFirst]⟩
  | q :: rest => by
    by_cases hq : q.1 = v
    · by_cases hp : p ∈ q.2
      · exact ⟨q, by simp [addPeerFirst, hq, hp], hq, hp⟩
      · exact ⟨(q.1, q.2 ++ [p]), by simp [addPeerFirst, hq, hp], hq, by simp⟩
    · rcases addPeerFirst_adds v p rest with ⟨pr, hmem, hpr⟩
      exact ⟨pr, by simp [addPeerFirst, hq, hmem], hpr⟩

theorem addPeerFirst_duplicate [DecidableEq R] (v : R) (p : PeerId) :
    ∀ {l : List (R × List PeerId)} {pr : R × List PeerId},
      l.find? (fun q => q.1 = v) = some pr → p ∈ pr.2 → addPeerFirst l v p = l := by
  intro l
  induction l with
  | nil => intro pr hfind; simp at hfind
  | cons q rest ih =>
    intro pr hfind hp
    by_cases hq : q.1 = v
    · have : pr = q := by
        rw [List.find?_cons_of_pos _ (by simpa using hq)] at hfind
        exact (Option.some.injEq _ _ ▸ hfind).symm
      subst this
      simp [addPeerFirst, hq, hp]
    · rw [List.find?_cons_of_neg _ (by simpa using hq)] at hfind
      simp [addPeerFirst, hq, ih hfind hp]

theorem process_success_state [DecidableEq R] {s : CurrentConsensus R} {p : PeerId}
    {r : Except ApiError R} {v : R} (h : (s.process p r).2 = .Success v) :
    (s.process p r).1 = s.accumulate p r ∧ (s.accumulate p r).saturatedValue v := by
  have hpair : (s.accumulate p r).inspect = ((s.process p r).1, QueryStep.Success v) := by
    rw [← h]; rfl
  exact inspect_success hpair

theorem process_saturated [DecidableEq R] {s : CurrentConsensus R} (h : s.saturated)
    (p : PeerId) (r : Except ApiError R) :
    ((s.process p r).2).isSuccess = true ∧ (s.process p r).1.saturated := by
  have hacc := accumulate_saturated p r h
  rcases inspect_saturated hacc with ⟨v, hi, _⟩
  constructor
  · show ((s.accumulate p r).inspect.2).isSuccess = true
    rw [hi]; rfl
  · show ((s.accumulate p r).inspect.1).saturated
    rw [hi]; exact hacc

theorem runCC_saturated [DecidableEq R] :
    ∀ (inputs : List (PeerId × Except ApiError R)) (s : CurrentConsensus R),
      s.saturated → ∀ st ∈ runCC s inputs, st.isSuccess = true
  | [], _, _ => by simp [runCC]
  | q :: rest, s, h => by
    rcases process_saturated h q.1 q.2 with ⟨h1, h2⟩
    intro st hst
    simp only [runCC, List.mem_cons] at hst
    rcases hst with heq | htail
    · rw [heq]; exact h1
    · exact runCC_saturated rest _ h2 st htail

theorem mem_unionInsert [DecidableEq R] (acc : List R) (r x : R) :
    x ∈ unionInsert acc r ↔ x ∈ acc ∨ x = r := by
  unfold unionInsert
  by_cases hr : r ∈ acc
  · simp only [if_pos hr]
    constructor
    · exact Or.inl
    · rintro (hx | rfl) <;> [exact hx; exact hr]
  · simp [if_neg hr]

theorem unionInsert_nodup [DecidableEq R] {acc : List R} (h : acc.Nodup) (r : R) :
    (unionInsert acc r).Nodup := by
  unfold unionInsert
  by_cases hr : r ∈ acc
  · simpa [hr] using h
  · simp [hr, List.nodup_append, h, List.disjoint_singleton]

theorem foldl_unionInsert_nodup [DecidableEq R] :
    ∀ (l acc : List R), acc.Nodup → (l.foldl unionInsert acc).Nodup
  | [], _, h => h
  | r :: rest, acc, h =>
    foldl_unionInsert_nodup rest (unionInsert acc r) (unionInsert_nodup h r)

theorem mem_foldl_unionInsert [DecidableEq R] :
    ∀ (l acc : List R) (x : R), x ∈ l.foldl unionInsert acc ↔ x ∈ acc ∨ x ∈ l
  | [], acc, x => by simp
  | r :: rest, acc, x => by
    rw [List.foldl_cons, mem_foldl_unionInsert rest (unionInsert acc r) x,
      mem_unionInsert]
    simp [or_assoc]

theorem unionAll_flatten [DecidableEq R] :
    ∀ (vecs : List (List R)) (acc : List R),
      unionAll acc vecs = vecs.flatten.foldl unionInsert acc
  | [], _ => rfl
  | rs :: rest, acc => by
    rw [List.flatten_cons, List.foldl_append]
    exact unionAll_flatten rest (rs.foldl unionInsert acc)

theorem runUR_all_ok [DecidableEq R] :
    ∀ (inputs : List (PeerId × List R)) (s : UnionResponses R),
      inputs ≠ [] →
      (∀ q ∈ inputs, q.1 ∉ s.responses) →
      (inputs.map Prod.fst).Nodup →
      s.responses.length + inputs.length = s.required →
      runUR s (inputs.map (fun q => (q.1, .ok q.2))) =
        List.replicate (inputs.length - 1) .Continue ++
          [.Success (unionAll s.existing_results (inputs.map Prod.snd))]
  | [], _, hne, _, _, _ => absurd rfl hne
  | (p, rs) :: rest, s, _, hfresh, hnodup, hlen => by
    have hp : p ∉ s.responses := hfresh (p, rs) (List.mem_cons_self _ _)
    have hresp : insertPeer s.responses p = s.responses ++ [p] := by
      simp [insertPeer, hp]
    have hresplen : (insertPeer s.responses p).length = s.responses.length + 1 := by
      simp [hresp]
    rcases rest with _ | ⟨q, rest'⟩
    · have hreq : s.required ≤ (insertPeer s.responses p).length := by
        simp only [List.length_cons, List.length_nil] at hlen
        rw [hresplen]; omega
      have hstep1 : UnionResponses.process s p (.ok rs) =
          ({ s with existing_results := [], responses := insertPeer s.responses p },
            .Success (rs.foldl unionInsert s.existing_results)) := by
        simp [UnionResponses.process, if_pos hreq]
      calc runUR s (((p, rs) :: []).map (fun q => (q.1, .ok q.2)))
          = (UnionResponses.process s p (.ok rs)).2 ::
              runUR (UnionResponses.process s p (.ok rs)).1 [] := rfl
        _ = [.Success (rs.foldl unionInsert s.existing_results)] := by rw [hstep1]; rfl
        _ = List.replicate (((p, rs) :: []).length - 1) .Continue ++
              [.Success (unionAll s.existing_results (((p, rs) :: []).map Prod.snd))] := rfl
    · have hlt : ¬ s.required ≤ (insertPeer s.responses p).length := by
        simp only [List.length_cons] at hlen
        rw [hresplen]; omega
      have hstep1 : UnionResponses.process s p (.ok rs) =
          ({ s with existing_results := rs.foldl unionInsert s.existing_results,
                    responses := insertPeer s.responses p }, .Continue) := by
        simp [UnionResponses.process, if_neg hlt]
      have hstep := runUR_all_ok (q :: rest')
        { s with existing_results := rs.foldl unionInsert s.existing_results,
                 responses := insertPeer s.responses p }
        (by simp)
        (by
          intro q' hq'
          rw [hresp]
          simp only [List.mem_append, List.mem_singleton]
          push_neg
          refine ⟨hfresh q' (List.mem_cons_of_mem _ hq'), ?_⟩
          intro hq1
          have hh := hnodup
          simp only [List.map_cons, List.nodup_cons] at hh
          exact hh.1 (hq1 ▸ List.mem_map_of_mem Prod.fst hq'))
        (by
          simp only [List.map_cons, List.nodup_cons] at hnodup ⊢
          exact hnodup.2)
        (by
          simp only [hresplen, List.length_cons] at hlen ⊢
          omega)
      calc runUR s (((p, rs) :: q :: rest').map (fun q => (q.1, .ok q.2)))
          = (UnionResponses.process s p (.ok rs)).2 ::
              runUR (UnionResponses.process s p (.ok rs)).1
                ((q :: rest').map (fun q => (q.1, .ok q.2))) := rfl
        _ = .Continue ::
              runUR { s with existing_results := rs.foldl unionInsert s.existing_results,
                             responses := insertPeer s.responses p }
                ((q :: rest').map (fun q => (q.1, .ok q.2))) := by rw [hstep1]
        _ = .Continue ::
              (List.replicate ((q :: rest').length - 1) .Continue ++
                [.Success (unionAll (rs.foldl unionInsert s.existing_results)
                  ((q :: rest').map Prod.snd))]) := by rw [hstep]
        _ = List.replicate (((p, rs) :: q :: rest').length - 1) .Continue ++
              [.Success (unionAll s.existing_results
                (((p, rs) :: q :: rest').map Prod.snd))] := by
            simp only [List.length_cons, Nat.add_sub_cancel, List.replicate_succ,
              List.cons_append, List.map_cons]
            rfl

end Lemmas

instance {R : Type} (s : CurrentConsensus R) : Decidable s.saturated :=
  decidable_of_iff (∃ pr ∈ s.existing_results, s.required ≤ pr.2.length) Iff.rfl

instance {R : Type} [DecidableEq R] (s : CurrentConsensus R) (v : R) :
    Decidable (s.saturatedValue v) :=
  decidable_of_iff (∃ pr ∈ s.existing_results, pr.1 = v ∧ s.required ≤ pr.2.length) Iff.rfl

instance {R : Type} [DecidableEq R] (s : CurrentConsensus R) (v : R) (p : PeerId) :
    Decidable (s.supports v p) :=
  decidable_of_iff (∃ pr ∈ s.existing_results, pr.1 = v ∧ p ∈ pr.2) Iff.rfl

/-- Counterexample to claim C1: on a full but open submission channel, the
proposer's `send(..).await` suspends the task rather than dropping the push;
the claimed best-effort model would instead leave the queue unchanged. -/
theorem C1_counterexample :
    submitModuleCI ⟨1, [ConsensusItem.Transaction 0], false⟩ 2 5 = SendOutcome.suspends ∧
    submitModuleCIBestEffort ⟨1, [ConsensusItem.Transaction 0], false⟩ 2 5 =
      [ConsensusItem.Transaction 0] := by
  decide

/-- Claim C1 (amended): on every proposer tick, each item returned by
`consensus_proposal` is wrapped as a `ConsensusItem::Module` and sent on the
submission channel with an awaiting send: when the open channel has space the
wrapped item is enqueued at the tail (there the claimed best-effort push
agrees); when the channel is full the proposer task suspends until space frees
instead of dropping the item; only the closed-channel send error is discarded
silently by `.ok()`. -/
theorem C1_module_ci_send (c : Channel ConsensusItem) (i x : Nat)
    (hopen : c.closed = false) :
    (c.queue.length < c.cap →
      submitModuleCI c i x = .sent (c.queue ++ [ConsensusItem.Module i x]) ∧
      submitModuleCIBestEffort c i x = c.queue ++ [ConsensusItem.Module i x]) ∧
    (c.cap ≤ c.queue.length →
      submitModuleCI c i x = .suspends ∧
      submitModuleCIBestEffort c i x = c.queue) := by
  constructor
  · intro hlt
    constructor
    · simp [submitModuleCI, sendAwaitOk, hopen, hlt]
    · simp [submitModuleCIBestEffort, hlt]
  · intro hge
    have hnlt : ¬ c.queue.length < c.cap := by omega
    constructor
    · simp [submitModuleCI, sendAwaitOk, hopen, hnlt]
    · simp [submitModuleCIBestEffort, hnlt]

/-- Witness for claim C1's amended theorem, at a channel with space and at a
full channel. -/
theorem C1_module_ci_send_witness :
    (submitModuleCI ⟨2, [], false⟩ 3 4 = .sent [ConsensusItem.Module 3 4] ∧
      submitModuleCIBestEffort ⟨2, [], false⟩ 3 4 = [ConsensusItem.Module 3 4]) ∧
    (submitModuleCI ⟨1, [ConsensusItem.Module 0 0], false⟩ 3 4 = .suspends ∧
      submitModuleCIBestEffort ⟨1, [ConsensusItem.Module 0 0], false⟩ 3 4 =
        [ConsensusItem.Module 0 0]) :=
  ⟨(C1_module_ci_send ⟨2, [], false⟩ 3 4 rfl).1 (by decide),
   (C1_module_ci_send ⟨1, [ConsensusItem.Module 0 0], false⟩ 3 4 rfl).2 (by decide)⟩

/-- Counterexample to claim C2: driving one `CurrentConsensus(1)` instance with
`(P1, Err e)`, `(P1, Ok 5)`, `(P1, Ok 5)` emits `Failure`, `Success`, `Success`:
the directive sequence holds two `Success`es, and both a `Success` and a
`Failure`. -/
theorem C2_counterexample :
    (runCC (CurrentConsensus.new (R := Nat) 1)
        [(1, .error (.other "e")), (1, .ok 5), (1, .ok 5)]).countP
        (fun st => st.isSuccess) = 2 ∧
    (runCC (CurrentConsensus.new (R := Nat) 1)
        [(1, .error (.other "e")), (1, .ok 5), (1, .ok 5)]).any
        (fun st => st.isSuccess) = true ∧
    (runCC (CurrentConsensus.new (R := Nat) 1)
        [(1, .error (.other "e")), (1, .ok 5), (1, .ok 5)]).any
        (fun st => st.isFailure) = true := by
  decide

/-- Claim C2 (amended): the strategy itself does not stop after a terminal
directive (the driver is expected to): `CurrentConsensus` may emit `Success`
repeatedly and may emit `Success` after a `Failure`.  What does hold: once
`process` has emitted a `Success`, every directive emitted by any further
sequence of calls is again a `Success` — in particular no `Failure` ever
follows a `Success`. -/
theorem C2_success_persists {R : Type} [DecidableEq R] (s : CurrentConsensus R)
    (p : PeerId) (r : Except ApiError R) (v : R)
    (h : (s.process p r).2 = .Success v)
    (inputs : List (PeerId × Except ApiError R)) :
    ∀ st ∈ runCC (s.process p r).1 inputs, st.isSuccess = true := by
  have hsat : (s.process p r).1.saturated := by
    rcases process_success_state h with ⟨heq, hv⟩
    rw [heq]
    rcases hv with ⟨pr, hmem, _, hlen⟩
    exact ⟨pr, hmem, hlen⟩
  exact runCC_saturated inputs _ hsat

/-- Witness for claim C2's amended theorem: after `Success 5` at threshold 1,
the directive for a further error response is again a `Success`. -/
theorem C2_success_persists_witness :
    QueryStep.isSuccess (R := Nat) (.Success 5) = true :=
  C2_success_persists (CurrentConsensus.new 1) 1 (.ok 5) 5 (by decide)
    [(2, .error (.other "e"))] (.Success 5) (by decide)

/-- Claim C3: `CurrentConsensus(t)` emits `Success(v)` exactly when some
accumulated Ok value has at least `t` supporters (and any emitted `Success` is
of such a value), and — when no value is saturated — emits `Failure` of exactly
the accumulated per-peer error map as soon as the number of erroring peers
reaches `t`; scenarios S1 and S2 behave as specified. -/
theorem C3_current_consensus (R : Type) [DecidableEq R] (s : CurrentConsensus R)
    (p : PeerId) (r : Except ApiError R) :
    (runCC (CurrentConsensus.new 3) [(1, .ok "a"), (2, .ok "a"), (3, .ok "a")] =
      [.Continue, .Continue, .Success "a"]) ∧
    (runCC (CurrentConsensus.new (R := String) 3)
        [(1, .error (.other "E1")), (2, .error (.other "E2")),
         (3, .error (.other "E3"))] =
      [.Continue, .Continue,
       .Failure [(1, .other "E1"), (2, .other "E2"), (3, .other "E3")]]) ∧
    (∀ v, (s.process p r).2 = .Success v → (s.accumulate p r).saturatedValue v) ∧
    ((s.accumulate p r).saturated →
      ∃ v, (s.process p r).2 = .Success v ∧ (s.accumulate p r).saturatedValue v) ∧
    (∀ m, (s.process p r).2 = .Failure m →
      m = (s.accumulate p r).errors ∧ s.required ≤ m.length ∧
        ¬ (s.accumulate p r).saturated) ∧
    (¬ (s.accumulate p r).saturated → s.required ≤ (s.accumulate p r).errors.length →
      (s.process p r).2 = .Failure ((s.accumulate p r).errors)) := by
  refine ⟨by decide, by decide, ?_, ?_, ?_, ?_⟩
  · intro v h
    exact (process_success_state h).2
  · intro hsat
    rcases inspect_saturated hsat with ⟨v, hi, hv⟩
    refine ⟨v, ?_, hv⟩
    show ((s.accumulate p r).inspect).2 = _
    rw [hi]
  · intro m h
    have hpair : (s.accumulate p r).inspect = ((s.process p r).1, QueryStep.Failure m) := by
      rw [← h]; rfl
    obtain ⟨hm, hlen, hnsat⟩ := inspect_failure hpair
    refine ⟨hm, ?_, hnsat⟩
    rw [hm]
    rwa [accumulate_required] at hlen
  · intro hnsat herr
    have hfind := inspect_not_saturated (s := s.accumulate p r) hnsat
    show ((s.accumulate p r).inspect).2 = _
    unfold CurrentConsensus.inspect
    rw [hfind, accumulate_required, if_pos herr]

/-- Witness for claim C3, exercising every implication at threshold 1. -/
theorem C3_current_consensus_witness :
    ((CurrentConsensus.new (R := Nat) 1).accumulate 1 (.ok 5)).saturatedValue 5 ∧
    (∃ v, ((CurrentConsensus.new (R := Nat) 1).process 1 (.ok 5)).2 = .Success v ∧
      ((CurrentConsensus.new (R := Nat) 1).accumulate 1 (.ok 5)).saturatedValue v) ∧
    ([(1, ApiError.other "e")] =
        ((CurrentConsensus.new (R := Nat) 1).accumulate 1 (.error (.other "e"))).errors ∧
      1 ≤ ([(1, ApiError.other "e")] : List (PeerId × ApiError)).length ∧
      ¬ ((CurrentConsensus.new (R := Nat) 1).accumulate 1 (.error (.other "e"))).saturated) ∧
    ((CurrentConsensus.new (R := Nat) 1).process 1 (.error (.other "e"))).2 =
      .Failure (((CurrentConsensus.new (R := Nat) 1).accumulate 1
        (.error (.other "e"))).errors) :=
  ⟨(C3_current_consensus Nat (CurrentConsensus.new 1) 1 (.ok 5)).2.2.1 5 (by decide),
   (C3_current_consensus Nat (CurrentConsensus.new 1) 1 (.ok 5)).2.2.2.1 (by decide),
   (C3_current_consensus Nat (CurrentConsensus.new 1) 1
      (.error (.other "e"))).2.2.2.2.1 [(1, .other "e")] (by decide),
   (C3_current_consensus Nat (CurrentConsensus.new 1) 1
      (.error (.other "e"))).2.2.2.2.2 (by decide) (by decide)⟩

/-- Claim C4: a second Ok with the same value from the same peer is ignored by
`CurrentConsensus::process`: the state (in particular the value's supporter
set) is left exactly as it was, and the returned directive is the one produced
by inspecting the unchanged state. -/
theorem C4_duplicate_ignored {R : Type} [DecidableEq R] (s : CurrentConsensus R)
    (p : PeerId) (v : R) (pr : R × List PeerId)
    (hfind : s.existing_results.find? (fun q => q.1 = v) = some pr)
    (hp : p ∈ pr.2) :
    s.accumulate p (.ok v) = s ∧ s.process p (.ok v) = s.inspect := by
  have hacc : s.accumulate p (.ok v) = s := by
    show { s with existing_results := addPeerFirst s.existing_results v p } = s
    rw [addPeerFirst_duplicate v p hfind hp]
  refine ⟨hacc, ?_⟩
  show (s.accumulate p (.ok v)).inspect = s.inspect
  rw [hacc]

/-- Witness for claim C4: peer 1 resubmitting Ok 5 changes nothing. -/
theorem C4_duplicate_ignored_witness :
    CurrentConsensus.accumulate ⟨[(5, [1])], [], 2⟩ 1 (.ok 5) =
      (⟨[(5, [1])], [], 2⟩ : CurrentConsensus Nat) ∧
    CurrentConsensus.process ⟨[(5, [1])], [], 2⟩ 1 (.ok 5) =
      CurrentConsensus.inspect (⟨[(5, [1])], [], 2⟩ : CurrentConsensus Nat) :=
  C4_duplicate_ignored ⟨[(5, [1])], [], 2⟩ 1 5 (5, [1]) (by decide) (by decide)

/-- Counterexample to claim C5: at threshold 1, one peer responds with an error
— one distinct peer has responded and no value has reached 1 supporter, yet
`EventuallyConsistent::process` emits `Failure` (the inner `CurrentConsensus`
error threshold fires), not the claimed `RetryMembers({P1})`. -/
theorem C5_counterexample :
    ((EventuallyConsistent.new (R := Nat) 1).process 1 (.error (.other "e"))).2 =
      .Failure [(1, .other "e")] ∧
    ((EventuallyConsistent.new (R := Nat) 1).process 1 (.error (.other "e"))).2 ≠
      .RetryMembers [1] ∧
    ((EventuallyConsistent.new (R := Nat) 1).process 1
      (.error (.other "e"))).1.current.existing_results = [] := by
  decide

/-- Claim C5 (amended): when the wrapped `CurrentConsensus` step yields
`Continue` (no value has reached `t` supporters and fewer than `t` peers have
errored) and with this response `t` distinct peers have responded in the
current round, `EventuallyConsistent::process` emits `RetryMembers` of exactly
the round's responder set and resets it (keeping the inner accumulator); the
S5 scenario behaves as specified. -/
theorem C5_eventually_consistent {R : Type} [DecidableEq R]
    (s : EventuallyConsistent R) (p : PeerId) (r : Except ApiError R)
    (hcont : (s.current.process p r).2 = .Continue)
    (hlen : s.required ≤ (insertPeer s.responses p).length) :
    s.process p r =
      ({ s with responses := [], current := (s.current.process p r).1 },
        .RetryMembers (insertPeer s.responses p)) ∧
    runEC (EventuallyConsistent.new 2)
      [(1, .ok "a"), (2, .ok "b"), (1, .ok "a"), (2, .ok "a")] =
      [.Continue, .RetryMembers [1, 2], .Continue, .Success "a"] := by
  refine ⟨?_, by decide⟩
  simp only [EventuallyConsistent.process, hcont, if_pos hlen]

/-- Witness for claim C5's amended theorem: second fresh responder at
threshold 2 triggers the retry round. -/
theorem C5_eventually_consistent_witness :
    EventuallyConsistent.process ⟨[1], CurrentConsensus.new 2, 2⟩ 2 (.ok 9) =
      ((⟨[], CurrentConsensus.process (CurrentConsensus.new 2) 2 (.ok 9) |>.1, 2⟩ :
        EventuallyConsistent Nat),
        .RetryMembers (insertPeer [1] 2)) ∧
    runEC (EventuallyConsistent.new 2)
      [(1, .ok "a"), (2, .ok "b"), (1, .ok "a"), (2, .ok "a")] =
      [.Continue, .RetryMembers [1, 2], .Continue, .Success "a"] :=
  C5_eventually_consistent ⟨[1], CurrentConsensus.new 2, 2⟩ 2 (.ok 9)
    (by decide) (by decide)

/-- Claim C6: `UnionResponses(t)` fed Ok vectors from `t` distinct peers emits
`Continue` for the first `t-1` and then `Success` of the deduplicated union of
all received vectors (insertion order, duplicates removed by equality: the
union is duplicate-free and has exactly the members of the concatenation);
errors are delegated to the wrapped `CurrentConsensus(t)`; scenario S4 behaves
as specified. -/
theorem C6_union_responses {R : Type} [DecidableEq R]
    (inputs : List (PeerId × List R)) (t : Nat)
    (hne : inputs ≠ [])
    (hnodup : (inputs.map Prod.fst).Nodup)
    (hlen : inputs.length = t) :
    (runUR (UnionResponses.new 2) [(1, .ok ["a", "b"]), (2, .ok ["b", "c"])] =
      [.Continue, .Success ["a", "b", "c"]]) ∧
    (runUR (UnionResponses.new t) (inputs.map fun q => (q.1, .ok q.2)) =
      List.replicate (t - 1) .Continue ++
        [.Success ((inputs.map Prod.snd).flatten.foldl unionInsert [])]) ∧
    ((inputs.map Prod.snd).flatten.foldl unionInsert []).Nodup ∧
    (∀ x, x ∈ (inputs.map Prod.snd).flatten.foldl unionInsert [] ↔
      x ∈ (inputs.map Prod.snd).flatten) ∧
    (∀ (s : UnionResponses R) (p : PeerId) (e : ApiError),
      s.process p (.error e) =
        ({ s with current := (s.current.process p (.error e)).1 },
          (s.current.process p (.error e)).2)) := by
  refine ⟨by decide, ?_, ?_, ?_, fun s p e => rfl⟩
  · have h := runUR_all_ok inputs (UnionResponses.new t) hne
      (by intro q hq; simp [UnionResponses.new])
      hnodup
      (by simp [UnionResponses.new, hlen])
    rw [unionAll_flatten] at h
    rw [hlen] at h
    exact h
  · exact foldl_unionInsert_nodup _ [] List.nodup_nil
  · intro x
    rw [mem_foldl_unionInsert]
    simp

/-- Witness for claim C6, at scenario S4's inputs. -/
theorem C6_union_responses_witness :
    runUR (UnionResponses.new 2)
        ([(1, ["a", "b"]), (2, ["b", "c"])].map fun q => (q.1, .ok q.2)) =
      List.replicate (2 - 1) .Continue ++
        [.Success ((([(1, ["a", "b"]), (2, ["b", "c"])].map Prod.snd).flatten).foldl
          unionInsert [])] :=
  (C6_union_responses [(1, ["a", "b"]), (2, ["b", "c"])] 2 (by decide)
    (by decide) (by decide)).2.1

/-- Claim C7: `UnionResponsesSingle(t)` has the same contract as
`UnionResponses(t)` modulo wrapping: for every state, peer and result, feeding
it `Ok(r)` produces exactly the state and directive `UnionResponses` produces
on `Ok([r])`, and the two act identically on errors. -/
theorem C7_single_union_equiv {R : Type} [DecidableEq R]
    (s : UnionResponsesSingle R) (p : PeerId) (result : Except ApiError R) :
    ((s.process p result).1.toUR, (s.process p result).2) =
      UnionResponses.process s.toUR p (liftSingle result) := by
  obtain ⟨a, b, c, d⟩ := s
  cases result with
  | ok r =>
    show _ = UnionResponses.process _ p (.ok [r])
    by_cases hc : d ≤ (insertPeer a p).length
    · simp [UnionResponsesSingle.process, UnionResponses.process,
        UnionResponsesSingle.toUR, hc]
    · simp [UnionResponsesSingle.process, UnionResponses.process,
        UnionResponsesSingle.toUR, hc]
  | error e => rfl

/-- Claim C8: `Retry404(t)` emits `RetryMembers({peer})` exactly for an error
carrying the rpc "not found" code 404; every other result (Ok, or an error
without that code) is handled by the wrapped `CurrentConsensus(t)`; scenario S3
behaves as specified. -/
theorem C8_retry404 {R : Type} [DecidableEq R] (s : Retry404 R) (p : PeerId)
    (e : ApiError) (v : R) :
    (runR404 (Retry404.new 2)
        [(1, .error (.rpcCallCustom 404 "nf")), (2, .ok "x"), (3, .ok "x")] =
      [.RetryMembers [1], .Continue, .Success "x"]) ∧
    (e.is404 = true → s.process p (.error e) = (s, .RetryMembers [p])) ∧
    (e.is404 = false →
      s.process p (.error e) =
        (⟨(s.current.process p (.error e)).1⟩, (s.current.process p (.error e)).2)) ∧
    (s.process p (.ok v) =
      (⟨(s.current.process p (.ok v)).1⟩, (s.current.process p (.ok v)).2)) := by
  refine ⟨by decide, ?_, ?_, rfl⟩
  · intro h
    simp [Retry404.process, h]
  · intro h
    simp [Retry404.process, h]

/-- Witness for claim C8: a 404 error retries its peer, another error does
not. -/
theorem C8_retry404_witness :
    (Retry404.process (Retry404.new (R := Nat) 2) 1
        (.error (.rpcCallCustom 404 "nf")) = (Retry404.new 2, .RetryMembers [1])) ∧
    (Retry404.process (Retry404.new (R := Nat) 2) 1 (.error (.other "boom")) =
      (⟨((Retry404.new (R := Nat) 2).current.process 1 (.error (.other "boom"))).1⟩,
        ((Retry404.new (R := Nat) 2).current.process 1 (.error (.other "boom"))).2)) :=
  ⟨(C8_retry404 (Retry404.new 2) 1 (.rpcCallCustom 404 "nf") 0).2.1 (by decide),
   (C8_retry404 (Retry404.new 2) 1 (.other "boom") 0).2.2.1 (by decide)⟩

/-- Counterexample to claim C9: the empty path for a non-module endpoint
contains no character outside `[0-9a-z_]` and so passes the check and is
registered, yet it does not match `[0-9a-z_]+` (which requires at least one
character). -/
theorem C9_counterexample :
    attachEndpointPath none [] = some [] ∧ matchesPathFormat [] = false := by
  decide

/-- Claim C9 (amended): every path registered by `attach_endpoints` consists
only of characters in `[0-9a-z_]` (the check does not enforce non-emptiness,
so a registered path matches `[0-9a-z_]*`); a module endpoint's registered
path is `module_<instance_id>_<name>` and, being nonempty, does match
`[0-9a-z_]+`; registering any path containing a character outside the alphabet
panics, aborting startup instead of serving the endpoint. -/
theorem C9_path_gate (mid : Option Nat) (p path : List Char) :
    (attachEndpointPath mid p = some path →
      path = mkEndpointPath mid p ∧ path.all validPathChar = true) ∧
    ((mkEndpointPath mid p).any (fun c => !validPathChar c) = true →
      attachEndpointPath mid p = none) ∧
    (∀ id, attachEndpointPath (some id) p = some path →
      matchesPathFormat path = true) := by
  have main : ∀ m : Option Nat, attachEndpointPath m p = some path →
      path = mkEndpointPath m p ∧ path.all validPathChar = true := by
    intro m h
    simp only [attachEndpointPath] at h
    by_cases hbad : (mkEndpointPath m p).any (fun c => !validPathChar c) = true
    · rw [if_pos hbad] at h
      exact absurd h (by simp)
    · rw [if_neg hbad] at h
      have hpath : path = mkEndpointPath m p := (Option.some.inj h).symm
      refine ⟨hpath, ?_⟩
      rw [hpath, List.all_eq_true]
      rw [Bool.not_eq_true, List.any_eq_false] at hbad
      intro c hc
      simpa using hbad c hc
  refine ⟨main mid, ?_, ?_⟩
  · intro hbad
    simp [attachEndpointPath, hbad]
  · intro id h
    obtain ⟨hpath, hall⟩ := main (some id) h
    have hm : "module_".toList = ['m', 'o', 'd', 'u', 'l', 'e', '_'] := by decide
    have hne : path.isEmpty = false := by
      rw [hpath]
      simp [mkEndpointPath, hm]
    simp [matchesPathFormat, hne, hall]

/-- Witness for claim C9's amended theorem: a module endpoint path is built,
validated and matches the format; an uppercase path aborts startup. -/
theorem C9_path_gate_witness :
    ("module_7_account".toList = mkEndpointPath (some 7) "account".toList ∧
      "module_7_account".toList.all validPathChar = true) ∧
    attachEndpointPath none "Bad".toList = none ∧
    matchesPathFormat "module_7_account".toList = true :=
  ⟨(C9_path_gate (some 7) "account".toList "module_7_account".toList).1 (by decide),
   (C9_path_gate none "Bad".toList []).2.1 (by decide),
   (C9_path_gate (some 7) "account".toList "module_7_account".toList).2.2 7 (by decide)⟩

/-- Counterexample to claim C10: at threshold 1, `(P1, Err e)` makes the error
count reach the threshold, so `process` emits `Failure` and `mem::take` clears
the error map; after the subsequent `(P1, Ok 7)` the peer supports value 7 but
the error map is empty — the peer is not simultaneously in both. -/
theorem C10_counterexample :
    (((CurrentConsensus.new (R := Nat) 1).process 1
        (.error (.other "e"))).1.process 1 (.ok 7)).1.existing_results =
      [(7, [1])] ∧
    (((CurrentConsensus.new (R := Nat) 1).process 1
        (.error (.other "e"))).1.process 1 (.ok 7)).1.errors = [] := by
  decide

/-- Claim C10 (amended): provided neither call emits `Failure` (which clears
the whole error map via `mem::take`), a peer's recorded error survives a later
Ok from the same peer: after `process(p, Err e)` then `process(p, Ok v)`, peer
`p` is simultaneously a supporter of `v` and mapped to `e` in the error map,
so one peer can count toward both thresholds. -/
theorem C10_error_kept {R : Type} [DecidableEq R] (s : CurrentConsensus R)
    (p : PeerId) (e : ApiError) (v : R)
    (h1 : ((s.process p (.error e)).2).isFailure = false)
    (h2 : (((s.process p (.error e)).1.process p (.ok v)).2).isFailure = false) :
    (((s.process p (.error e)).1.process p (.ok v)).1).supports v p ∧
    (p, e) ∈ (((s.process p (.error e)).1.process p (.ok v)).1).errors := by
  have hA : (s.process p (.error e)).1 = s.accumulate p (.error e) :=
    inspect_not_failure (s := s.accumulate p (.error e)) h1
  have hB : ((s.process p (.error e)).1.process p (.ok v)).1 =
      (s.process p (.error e)).1.accumulate p (.ok v) :=
    inspect_not_failure (s := (s.process p (.error e)).1.accumulate p (.ok v)) h2
  constructor
  · rw [hB]
    show ∃ pr ∈ addPeerFirst (s.process p (.error e)).1.existing_results v p,
      pr.1 = v ∧ p ∈ pr.2
    exact addPeerFirst_adds v p _
  · rw [hB]
    show (p, e) ∈ (s.process p (.error e)).1.errors
    rw [hA]
    show (p, e) ∈ insertKV s.errors p e
    exact insertKV_mem p e s.errors

/-- Witness for claim C10's amended theorem, at threshold 3 where no Failure
fires. -/
theorem C10_error_kept_witness :
    (((CurrentConsensus.new (R := Nat) 3).process 1
        (.error (.other "e"))).1.process 1 (.ok 7)).1.supports 7 1 ∧
    (1, ApiError.other "e") ∈
      (((CurrentConsensus.new (R := Nat) 3).process 1
        (.error (.other "e"))).1.process 1 (.ok 7)).1.errors :=
  C10_error_kept (CurrentConsensus.new 3) 1 (.other "e") 7 (by decide) (by decide)
